import Mathlib

/-!
# Verification of the voxseg frame-aligned feature/label pipeline

Shallow embedding of the two source modules `voxseg/extract_feats.py` and
`src/prep_labels.py`.  Python floats are modelled as exact rationals (`ℚ`),
Python `int()` as truncation toward zero, Python `range` by an explicit
arithmetic-progression generator, and `pandas` tables as lists of row
structures.  Fallible per-row computations (`_calculate_feats`,
`_generate_label_sequence`) return `Option`, mirroring the `None` produced by
their `except` branches, and the `dropna` step becomes a `filterMap`.  The two
external library calls (`python_speech_features.logfbank` composed with the
transpose/flip, and the square root inside `np.std`) are abstracted as
function parameters; every claim below holds for all instantiations of them.
-/

namespace Voxseg

/-- Python `int()` applied to a (rational-modelled) float: truncation toward
zero, i.e. floor for nonnegative arguments and ceiling for negative ones. -/
def pyTrunc (q : ℚ) : ℤ := if 0 ≤ q then ⌊q⌋ else ⌈q⌉

/-- Number of elements of Python `range(0, stop, step)` for a positive `step`
(the only case the sources use; Python rejects `step = 0` and the sources
never produce a negative step). -/
def pyRangeLen (stop step : ℤ) : ℕ := (stop.toNat + step.toNat - 1) / step.toNat

/-- Python `range(start, stop, step)` for a positive `step`, as the list of its
elements in iteration order. -/
def pyRange (start stop step : ℤ) : List ℤ :=
  (List.range (pyRangeLen (stop - start) step)).map (fun (k : ℕ) => start + (k : ℤ) * step)

/-- The frame-offset sequence of `_calculate_feats` (`extract_feats.py`,
lines 109/111): `range(0, int(len(sig)-1 - (frame_length+0.01) * rate),
int(frame_length * rate))`. -/
def featFrameRange (sigLen : ℕ) (frameLength : ℚ) (rate : ℕ) : List ℤ :=
  pyRange 0 (pyTrunc ((sigLen : ℚ) - 1 - (frameLength + 1/100) * rate))
    (pyTrunc (frameLength * rate))

/-- The frame-offset sequence of `_generate_label_sequence` (`prep_labels.py`,
lines 92/94): textually the same `range` expression as in
`_calculate_feats`. -/
def labelFrameRange (sigLen : ℕ) (frameLength : ℚ) (rate : ℕ) : List ℤ :=
  pyRange 0 (pyTrunc ((sigLen : ℚ) - 1 - (frameLength + 1/100) * rate))
    (pyTrunc (frameLength * rate))

/-- Python slice `l[a:b]` for nonnegative bounds `a`, `b` (the only case the
sources use): drop the first `a` elements, keep the next `b - a`. -/
def pySlice {α : Type} (l : List α) (a b : ℤ) : List α :=
  (l.drop a.toNat).take (b.toNat - a.toNat)

/-- A 2D feature array (one spectrogram frame), as produced by
`np.flipud(logfbank(...).T)`. -/
abbrev Mat := List (List ℚ)

/-- `_calculate_feats` (`extract_feats.py`, lines 93-115).  The external
library call `np.flipud(logfbank(slice, rate, nfilt=nfilt).T)`
(`python_speech_features`, outside this repository) is abstracted as the
parameter `logfbankT`, applied to the slice, the rate and `nfilt`.  The
`assert`/`except AssertionError` pair that returns `None` for too-short rows
becomes the `Option`; the warning printed for skipped rows is observability
only and is not modelled. -/
def calculateFeats (logfbankT : List ℚ → ℕ → ℕ → Mat) (sig : List ℚ)
    (frameLength : ℚ) (nfilt rate : ℕ) : Option (List Mat) :=
  let offs := featFrameRange sig.length frameLength rate
  if 0 < offs.length then
    some (offs.map (fun j =>
      logfbankT (pySlice sig j (pyTrunc ((j : ℚ) + (frameLength + 1/100) * rate)))
        rate nfilt))
  else none

/-- `_generate_label_sequence` (`prep_labels.py`, lines 76-98): one copy of the
row's label is appended per frame offset; a too-short row yields `None` via
the `assert`/`except` pair. -/
def generateLabelSequence (sig : List ℚ) (label : String) (frameLength : ℚ)
    (rate : ℕ) : Option (List String) :=
  let offs := labelFrameRange sig.length frameLength rate
  if 0 < offs.length then some (offs.map (fun _ => label)) else none

/-- A row of the table consumed by `extract` (the columns it reads or
keeps). -/
structure SigRow where
  recordingId : String
  utteranceId : String
  signal : List ℚ
deriving DecidableEq

/-- A row of the table produced by `extract`: the `signal` column is dropped
and a `features` column added. -/
structure FeatRow where
  recordingId : String
  utteranceId : String
  features : List Mat
deriving DecidableEq

/-- `extract` (`extract_feats.py`, lines 12-30): per-row feature computation,
drop of the `signal` column, then `dropna` removing the rows whose feature
computation returned `None`. -/
def extract (logfbankT : List ℚ → ℕ → ℕ → Mat) (frameLength : ℚ)
    (nfilt rate : ℕ) (data : List SigRow) : List FeatRow :=
  data.filterMap (fun r =>
    (calculateFeats logfbankT r.signal frameLength nfilt rate).map
      (fun f => ⟨r.recordingId, r.utteranceId, f⟩))

/-- `extract` as seen by its caller: the first component is the caller's table
object after the call.  Because `extract` starts with `data = data.copy()`
(line 26), every later column assignment hits the copy and the caller's table
is returned unchanged. -/
def extractCall (logfbankT : List ℚ → ℕ → ℕ → Mat) (frameLength : ℚ)
    (nfilt rate : ℕ) (data : List SigRow) : List SigRow × List FeatRow :=
  (data, extract logfbankT frameLength nfilt rate data)

/-- An IEEE-style value as produced by numpy division: finite, signed
infinity, or NaN.  Only division can produce a non-finite value in the code
under study. -/
inductive PyFloat where
  | fin (q : ℚ)
  | inf
  | ninf
  | nan
deriving DecidableEq

/-- Numpy float division `x / y` of finite operands: finite division when the
divisor is nonzero; `±inf` (or NaN for `0/0`) when the divisor is zero. -/
def pyDiv (x y : ℚ) : PyFloat :=
  if y = 0 then (if x = 0 then PyFloat.nan else if 0 < x then PyFloat.inf else PyFloat.ninf)
  else PyFloat.fin (x / y)

/-- The feature sequences of every row of `data` carrying the given
recording-id, in table order: the group that
`data['features'].groupby(data['recording-id'])` forms for that key. -/
def groupFeats (data : List FeatRow) (rid : String) : List (List Mat) :=
  (data.filter (fun r => r.recordingId == rid)).map (fun r => r.features)

/-- All scalar feature values of a group, pooled across every row, frame and
matrix entry: the multiset over which `np.vstack` followed by
`np.mean`/`np.std` operates. -/
def poolVals (g : List (List Mat)) : List ℚ := g.flatten.flatten.flatten

/-- `np.mean(np.vstack(group))`: the single scalar mean of all pooled
values. -/
def groupMean (g : List (List Mat)) : ℚ := (poolVals g).sum / (poolVals g).length

/-- The variance under `np.std(np.vstack(group))` (population variance,
`ddof = 0`): mean squared deviation of the pooled values. -/
def groupVar (g : List (List Mat)) : ℚ :=
  ((poolVals g).map (fun v => (v - groupMean g) ^ 2)).sum / (poolVals g).length

/-- `_get_mean_std` (`extract_feats.py`, lines 149-162): one scalar mean and
one scalar standard deviation per group.  The square root inside `np.std` is
abstracted as `stdFun` applied to the pooled variance (the true square root is
irrational in general; every theorem below holds for all `stdFun`). -/
def getMeanStd (stdFun : ℚ → ℚ) (g : List (List Mat)) : ℚ × ℚ :=
  (groupMean g, stdFun (groupVar g))

/-- The distinct recording-ids of the table, sorted: the group keys of
`groupby` (which sorts keys by default). -/
def groupKeys (data : List FeatRow) : List String :=
  ((data.map (fun r => r.recordingId)).toFinset).sort (· ≤ ·)

/-- The `mean_std` frame built in `normalize` (lines 44-46): one
`(recording-id, mean, std)` entry per group key. -/
def meanStdTable (stdFun : ℚ → ℚ) (data : List FeatRow) : List (String × ℚ × ℚ) :=
  (groupKeys data).map (fun k => (k, getMeanStd stdFun (groupFeats data k)))

/-- `_calculate_norm` (`extract_feats.py`, lines 118-131):
`[(i - row['mean']) / row['std'] for i in row['features']]`, i.e. every entry
of every frame rescaled by the row's single mean/std pair. -/
def calculateNorm (m s : ℚ) (features : List Mat) : List (List (List PyFloat)) :=
  features.map (fun fr => fr.map (fun line => line.map (fun v => pyDiv (v - m) s)))

/-- A row of the table produced by `normalize`: `features`, `mean` and `std`
are dropped; `normalized-features` added. -/
structure NormRow where
  recordingId : String
  utteranceId : String
  normalizedFeatures : List (List (List PyFloat))
deriving DecidableEq

/-- `normalize` (`extract_feats.py`, lines 33-55): group statistics per
recording-id, merge of the statistics onto each row by its recording-id, then
the per-row rescaling `_calculate_norm`. -/
def normalize (stdFun : ℚ → ℚ) (data : List FeatRow) : List NormRow :=
  let tbl := meanStdTable stdFun data
  data.filterMap (fun r =>
    (tbl.find? (fun e => e.1 == r.recordingId)).map
      (fun e => ⟨r.recordingId, r.utteranceId, calculateNorm e.2.1 e.2.2 r.features⟩))

/-- `normalize` as seen by its caller: the caller's table object is unchanged
because `normalize` starts with `data = data.copy()` (line 43). -/
def normalizeCall (stdFun : ℚ → ℚ) (data : List FeatRow) :
    List FeatRow × List NormRow :=
  (data, normalize stdFun data)

/-- A row of the table consumed by `get_labels`. -/
structure LabRow where
  recordingId : String
  utteranceId : String
  label : String
  signal : List ℚ
deriving DecidableEq

/-- A row of the caller's table object after `get_labels` returned: the
`labels` column has been assigned in place (`data['labels'] = ...`,
`prep_labels.py` line 22) while `signal` and `label` are still present —
`drop` and `dropna` rebind the local name only. -/
structure LabeledRow where
  recordingId : String
  utteranceId : String
  label : String
  signal : List ℚ
  labels : Option (List String)
deriving DecidableEq

/-- A row of the table returned by `get_labels`: `signal` and `label` dropped,
`None` rows removed. -/
structure LabelOutRow where
  recordingId : String
  utteranceId : String
  labels : List String
deriving DecidableEq

/-- The caller's table object after `get_labels`: every original column plus
the freshly assigned `labels` column (still containing the `None` entries of
skipped rows, since `dropna` only affects the returned copy). -/
def getLabelsCallerTable (frameLength : ℚ) (rate : ℕ) (data : List LabRow) :
    List LabeledRow :=
  data.map (fun r => ⟨r.recordingId, r.utteranceId, r.label, r.signal,
    generateLabelSequence r.signal r.label frameLength rate⟩)

/-- `get_labels` (`prep_labels.py`, lines 10-25): first component the caller's
mutated table object, second the returned table (labels computed, `signal` and
`label` dropped, `dropna` applied). -/
def getLabels (frameLength : ℚ) (rate : ℕ) (data : List LabRow) :
    List LabeledRow × List LabelOutRow :=
  (getLabelsCallerTable frameLength rate data,
   data.filterMap (fun r =>
     (generateLabelSequence r.signal r.label frameLength rate).map
       (fun ls => ⟨r.recordingId, r.utteranceId, ls⟩)))

/-- The label vocabulary of `one_hot` (`prep_labels.py`, line 39):
`np.unique(np.hstack(col))`, i.e. the distinct label strings of the whole
column, sorted. -/
def oneHotVocab (col : List (List String)) : List String :=
  (col.flatten.toFinset).sort (· ≤ ·)

/-- The one-hot vector `label_map[l]` built in `one_hot` (lines 40-44): a
zero vector of length `len(unique)` with a 1 at the label's index in the
sorted vocabulary. -/
def oneHotVec (vocab : List String) (l : String) : List ℕ :=
  (List.range vocab.length).map (fun j => if j = vocab.indexOf l then 1 else 0)

/-- `one_hot` (`prep_labels.py`, lines 28-45): build the vocabulary once from
the whole column, then replace every label of every row by its one-hot
vector. -/
def oneHot (col : List (List String)) : List (List (List ℕ)) :=
  let vocab := oneHotVocab col
  col.map (fun x => x.map (fun i => oneHotVec vocab i))

/-- The offset sequence asserted by the specification for claim C1, following
its words: the arithmetic sequence starting at 0 with step
`floor(frame_length * rate)`, containing every offset strictly less than
`signal_length - 1 - floor((frame_length + 0.01) * rate)`. -/
def specClaimedOffsets (sigLen : ℕ) (frameLength : ℚ) (rate : ℕ) : List ℤ :=
  pyRange 0 ((sigLen : ℤ) - 1 - ⌊(frameLength + 1/100) * (rate : ℚ)⌋)
    ⌊frameLength * (rate : ℚ)⌋

/-- The skip condition asserted by the specification for claim C2, following
its words: the signal length is below `(frame_length + 0.01) * rate + 1`. -/
def specClaimedSkip (sigLen : ℕ) (frameLength : ℚ) (rate : ℕ) : Prop :=
  (sigLen : ℚ) < (frameLength + 1/100) * rate + 1

/-! ## Theorems -/

theorem labelFrameRange_eq_featFrameRange :
    labelFrameRange = featFrameRange := rfl

theorem pyTrunc_eq_floor {q : ℚ} (h : 0 ≤ q) : pyTrunc q = ⌊q⌋ := by
  simp [pyTrunc, h]

theorem pyTrunc_nonpos_iff {q : ℚ} : pyTrunc q ≤ 0 ↔ q < 1 := by
  unfold pyTrunc
  split
  · rw [show (0 : ℤ) = 1 - 1 by ring]
    rw [Int.le_sub_one_iff, Int.floor_lt]
    norm_num
  · rename_i h
    push_neg at h
    constructor
    · intro _
      linarith
    · intro _
      rw [Int.ceil_le]
      exact le_of_lt (by exact_mod_cast h)

theorem pyTrunc_eq_of_nonneg {q : ℚ} {n : ℤ} (h0 : (n : ℚ) ≤ q) (h1 : q < n + 1)
    (hn : 0 ≤ n) : pyTrunc q = n := by
  have hq : 0 ≤ q := le_trans (by exact_mod_cast hn) h0
  rw [pyTrunc_eq_floor hq]
  rw [Int.floor_eq_iff]
  · exact ⟨h0, by exact_mod_cast h1⟩

theorem lt_pyRangeLen_iff {stop step : ℤ} (hstep : 1 ≤ step) (k : ℕ) :
    k < pyRangeLen stop step ↔ (k : ℤ) * step < stop := by
  unfold pyRangeLen
  have hb : 0 < step.toNat := by omega
  rcases le_or_lt stop 0 with hs | hs
  · have h0 : stop.toNat = 0 := Int.toNat_of_nonpos hs
    rw [h0]
    constructor
    · intro h
      exfalso
      have : (0 + step.toNat - 1) / step.toNat = 0 := by
        apply Nat.div_eq_of_lt
        omega
      omega
    · intro h
      exfalso
      have hk : (0 : ℤ) ≤ (k : ℤ) * step := by positivity
      omega
  · have hcast : ((stop.toNat : ℤ)) = stop := Int.toNat_of_nonneg (le_of_lt hs)
    have hcast2 : ((step.toNat : ℤ)) = step := Int.toNat_of_nonneg (by omega)
    have key : k < (stop.toNat + step.toNat - 1) / step.toNat ↔
        k * step.toNat < stop.toNat := by
      rw [show (k < (stop.toNat + step.toNat - 1) / step.toNat) ↔
          (k + 1 ≤ (stop.toNat + step.toNat - 1) / step.toNat) from Iff.rfl]
      rw [Nat.le_div_iff_mul_le hb]
      have hmul : (k + 1) * step.toNat = k * step.toNat + step.toNat := by ring
      rw [hmul]
      omega
    rw [key]
    rw [← hcast, ← hcast2]
    exact_mod_cast Iff.rfl

theorem mem_pyRange_zero_iff {stop step : ℤ} (hstep : 1 ≤ step) (o : ℤ) :
    o ∈ pyRange 0 stop step ↔ ∃ k : ℕ, o = (k : ℤ) * step ∧ o < stop := by
  unfold pyRange
  rw [sub_zero]
  constructor
  · intro h
    rcases List.mem_map.mp h with ⟨k, hk, hko⟩
    rw [List.mem_range] at hk
    refine ⟨k, by rw [← hko]; ring, ?_⟩
    have hlt := (lt_pyRangeLen_iff hstep k).mp hk
    rw [← hko]
    linarith
  · rintro ⟨k, rfl, hlt⟩
    apply List.mem_map.mpr
    refine ⟨k, ?_, by ring⟩
    rw [List.mem_range]
    exact (lt_pyRangeLen_iff hstep k).mpr hlt

theorem pyRange_zero_eq_nil_iff {stop step : ℤ} (hstep : 1 ≤ step) :
    pyRange 0 stop step = [] ↔ stop ≤ 0 := by
  constructor
  · intro h
    by_contra hs
    push_neg at hs
    have : (0 : ℤ) ∈ pyRange 0 stop step := by
      rw [mem_pyRange_zero_iff hstep]
      exact ⟨0, by ring, hs⟩
    rw [h] at this
    exact absurd this (List.not_mem_nil 0)
  · intro h
    unfold pyRange pyRangeLen
    rw [sub_zero]
    have h0 : stop.toNat = 0 := Int.toNat_of_nonpos h
    rw [h0]
    have : (0 + step.toNat - 1) / step.toNat = 0 := by
      apply Nat.div_eq_of_lt
      omega
    rw [this]
    rfl

theorem featFrameRange_eq_nil_iff {s : ℕ} {fl : ℚ} {rate : ℕ}
    (hstep : 1 ≤ pyTrunc (fl * rate)) :
    featFrameRange s fl rate = [] ↔ (s : ℚ) < (fl + 1/100) * rate + 2 := by
  unfold featFrameRange
  rw [pyRange_zero_eq_nil_iff hstep, pyTrunc_nonpos_iff]
  constructor <;> intro h <;> linarith

theorem pyRange_zero_chain_lt {stop step : ℤ} (hstep : 1 ≤ step) :
    (pyRange 0 stop step).Chain' (· < ·) := by
  unfold pyRange
  rw [sub_zero, List.chain'_map]
  cases hn : pyRangeLen stop step with
  | zero => exact List.chain'_nil
  | succ m =>
      rw [List.chain'_range_succ]
      intro i _
      show (0 : ℤ) + (i : ℤ) * step < 0 + ((i + 1 : ℕ) : ℤ) * step
      push_cast
      nlinarith

theorem pyRange_zero_chain_spacing {stop step : ℤ} :
    (pyRange 0 stop step).Chain' (fun a b => b - a = step) := by
  unfold pyRange
  rw [List.chain'_map]
  cases hn : pyRangeLen (stop - 0) step with
  | zero => exact List.chain'_nil
  | succ m =>
      rw [List.chain'_range_succ]
      intro i _
      show (0 : ℤ) + ((i + 1 : ℕ) : ℤ) * step - (0 + (i : ℤ) * step) = step
      push_cast
      ring

theorem pyRange_zero_head? {stop step : ℤ} (h : pyRange 0 stop step ≠ []) :
    (pyRange 0 stop step).head? = some 0 := by
  unfold pyRange at h ⊢
  cases hn : pyRangeLen (stop - 0) step with
  | zero =>
      rw [hn] at h
      simp at h
  | succ m =>
      rw [List.range_succ_eq_map]
      simp

/-- Rewrites `featFrameRange` once the two `pyTrunc` values are known, so that
concrete instances can be computed over the integers. -/
theorem featFrameRange_eq_pyRange (s : ℕ) (fl : ℚ) (rate : ℕ) (a b : ℤ)
    (ha : pyTrunc ((s : ℚ) - 1 - (fl + 1/100) * rate) = a)
    (hb : pyTrunc (fl * rate) = b) :
    featFrameRange s fl rate = pyRange 0 a b := by
  rw [featFrameRange, ha, hb]

theorem specClaimedOffsets_eq_pyRange (s : ℕ) (fl : ℚ) (rate : ℕ) (a b : ℤ)
    (ha : (s : ℤ) - 1 - ⌊(fl + 1/100) * (rate : ℚ)⌋ = a)
    (hb : (⌊fl * (rate : ℚ)⌋ : ℤ) = b) :
    specClaimedOffsets s fl rate = pyRange 0 a b := by
  rw [specClaimedOffsets, ha, hb]

theorem pyTrunc_half_ten : pyTrunc ((1/2 : ℚ) * ((10 : ℕ) : ℚ)) = 5 :=
  pyTrunc_eq_of_nonneg (by norm_num) (by norm_num) (by norm_num)

/-- Claim C1, amended.  The offsets computed by both the Feature Extractor and
the Label Aligner are the multiples of `trunc(frame_length * rate)` that are
strictly below `trunc(signal_length - 1 - (frame_length + 0.01) * rate)` (the
truncation applies to the whole stop expression); the sequence is the same for
both components, strictly increasing, evenly spaced, and starts at 0 when
nonempty. -/
theorem framing_engine_characterization (s : ℕ) (fl : ℚ) (rate : ℕ)
    (hstep : 1 ≤ pyTrunc (fl * rate)) :
    featFrameRange s fl rate = labelFrameRange s fl rate
    ∧ (∀ o : ℤ, o ∈ featFrameRange s fl rate ↔
        ∃ k : ℕ, o = (k : ℤ) * pyTrunc (fl * rate)
          ∧ o < pyTrunc ((s : ℚ) - 1 - (fl + 1/100) * rate))
    ∧ (featFrameRange s fl rate).Chain' (· < ·)
    ∧ (featFrameRange s fl rate).Chain' (fun a b => b - a = pyTrunc (fl * rate))
    ∧ (featFrameRange s fl rate = [] ∨ (featFrameRange s fl rate).head? = some 0) := by
  refine ⟨rfl, ?_, ?_, ?_, ?_⟩
  · intro o
    exact mem_pyRange_zero_iff hstep o
  · exact pyRange_zero_chain_lt hstep
  · exact pyRange_zero_chain_spacing
  · by_cases h : featFrameRange s fl rate = []
    · exact Or.inl h
    · exact Or.inr (pyRange_zero_head? h)

/-- Witness for the amended claim C1 at `signal_length = 20`,
`frame_length = 1/2`, `rate = 10`. -/
theorem framing_engine_characterization_witness :
    1 ≤ pyTrunc ((1/2 : ℚ) * ((10 : ℕ) : ℚ))
    ∧ (featFrameRange 20 (1/2) 10 = labelFrameRange 20 (1/2) 10
      ∧ (∀ o : ℤ, o ∈ featFrameRange 20 (1/2) 10 ↔
          ∃ k : ℕ, o = (k : ℤ) * pyTrunc ((1/2 : ℚ) * ((10 : ℕ) : ℚ))
            ∧ o < pyTrunc (((20 : ℕ) : ℚ) - 1 - ((1/2 : ℚ) + 1/100) * ((10 : ℕ) : ℚ)))
      ∧ (featFrameRange 20 (1/2) 10).Chain' (· < ·)
      ∧ (featFrameRange 20 (1/2) 10).Chain' (fun a b => b - a = pyTrunc ((1/2 : ℚ) * ((10 : ℕ) : ℚ)))
      ∧ (featFrameRange 20 (1/2) 10 = []
        ∨ (featFrameRange 20 (1/2) 10).head? = some 0)) := by
  have h : (1 : ℤ) ≤ pyTrunc ((1/2 : ℚ) * ((10 : ℕ) : ℚ)) :=
    le_of_le_of_eq (by decide) pyTrunc_half_ten.symm
  exact ⟨h, framing_engine_characterization 20 (1/2) 10 h⟩

/-- Counterexample to claim C1 as stated: at `signal_length = 12`,
`frame_length = 1/2`, `rate = 10` the code yields offsets `[0]`, while the
sequence described by the spec (bounded by
`signal_length - 1 - floor((frame_length + 0.01) * rate)`) is `[0, 5]`. -/
theorem framing_bound_claim_false :
    featFrameRange 12 (1/2) 10 = [0]
    ∧ specClaimedOffsets 12 (1/2) 10 = [0, 5]
    ∧ featFrameRange 12 (1/2) 10 ≠ specClaimedOffsets 12 (1/2) 10 := by
  have hfloor : ⌊((1/2 : ℚ) + 1/100) * ((10 : ℕ) : ℚ)⌋ = 5 := by
    rw [Int.floor_eq_iff]
    constructor <;> norm_num
  have e1 : featFrameRange 12 (1/2) 10 = pyRange 0 5 5 :=
    featFrameRange_eq_pyRange 12 (1/2) 10 5 5
      (pyTrunc_eq_of_nonneg (by norm_num) (by norm_num) (by norm_num))
      (pyTrunc_eq_of_nonneg (by norm_num) (by norm_num) (by norm_num))
  have e2 : specClaimedOffsets 12 (1/2) 10 = pyRange 0 6 5 :=
    specClaimedOffsets_eq_pyRange 12 (1/2) 10 6 5 (by rw [hfloor]; norm_num) (by
      rw [show ⌊(1/2 : ℚ) * ((10 : ℕ) : ℚ)⌋ = 5 from by
        rw [Int.floor_eq_iff]
        constructor <;> norm_num])
  rw [e1, e2]
  refine ⟨by decide, by decide, by decide⟩

theorem featFrameRange_12 : featFrameRange 12 (1/2) 10 = [0] := by
  rw [featFrameRange_eq_pyRange 12 (1/2) 10 5 5
    (pyTrunc_eq_of_nonneg (by norm_num) (by norm_num) (by norm_num))
    (pyTrunc_eq_of_nonneg (by norm_num) (by norm_num) (by norm_num))]
  decide

theorem featFrameRange_7 : featFrameRange 7 (1/2) 10 = [] := by
  rw [featFrameRange_eq_pyRange 7 (1/2) 10 0 5
    (pyTrunc_eq_of_nonneg (by norm_num) (by norm_num) (by norm_num))
    (pyTrunc_eq_of_nonneg (by norm_num) (by norm_num) (by norm_num))]
  decide

theorem filterMap_map_eq_filter_map {α β γ : Type} (g : α → Option β)
    (h : α → β → γ) (d : β) (l : List α) :
    l.filterMap (fun a => (g a).map (h a)) =
      (l.filter (fun a => (g a).isSome)).map (fun a => h a ((g a).getD d)) := by
  induction l with
  | nil => rfl
  | cons x xs ih =>
      cases hx : g x with
      | none => simp [List.filterMap_cons, List.filter_cons, hx, ih]
      | some b => simp [List.filterMap_cons, List.filter_cons, hx, ih]

theorem calculateFeats_eq_none_iff (logfbankT : List ℚ → ℕ → ℕ → Mat)
    (sig : List ℚ) (fl : ℚ) (nfilt rate : ℕ) :
    calculateFeats logfbankT sig fl nfilt rate = none ↔
      featFrameRange sig.length fl rate = [] := by
  simp only [calculateFeats]
  split
  · rename_i hpos
    constructor
    · intro hc
      exact absurd hc (by simp)
    · intro hnil
      rw [hnil] at hpos
      simp at hpos
  · rename_i hpos
    push_neg at hpos
    constructor
    · intro _
      exact List.eq_nil_of_length_eq_zero (by omega)
    · intro _
      rfl

theorem generateLabelSequence_eq_none_iff (sig : List ℚ) (lbl : String)
    (fl : ℚ) (rate : ℕ) :
    generateLabelSequence sig lbl fl rate = none ↔
      featFrameRange sig.length fl rate = [] := by
  simp only [generateLabelSequence, labelFrameRange_eq_featFrameRange]
  split
  · rename_i hpos
    constructor
    · intro hc
      exact absurd hc (by simp)
    · intro hnil
      rw [hnil] at hpos
      simp at hpos
  · rename_i hpos
    push_neg at hpos
    constructor
    · intro _
      exact List.eq_nil_of_length_eq_zero (by omega)
    · intro _
      rfl

/-- Claim C2, amended.  A row is skipped — its per-row computation returns
`None` and it is absent from the corresponding final table, the remaining rows
being kept in order — if and only if its signal length is below
`(frame_length + 0.01) * rate + 2` (the spec's threshold `+ 1` is off by
one); and the decision is the same for the Feature Extractor and the Label
Aligner. -/
theorem skip_threshold_characterization (logfbankT : List ℚ → ℕ → ℕ → Mat)
    (fl : ℚ) (nfilt rate : ℕ) (hstep : 1 ≤ pyTrunc (fl * rate)) :
    (∀ (sig : List ℚ) (lbl : String),
      (calculateFeats logfbankT sig fl nfilt rate = none ↔
        (sig.length : ℚ) < (fl + 1/100) * rate + 2)
      ∧ (generateLabelSequence sig lbl fl rate = none ↔
        (sig.length : ℚ) < (fl + 1/100) * rate + 2)
      ∧ (calculateFeats logfbankT sig fl nfilt rate = none ↔
        generateLabelSequence sig lbl fl rate = none))
    ∧ (∀ data : List SigRow,
        extract logfbankT fl nfilt rate data =
          (data.filter
            (fun r => decide ((fl + 1/100) * rate + 2 ≤ (r.signal.length : ℚ)))).map
            (fun r => ⟨r.recordingId, r.utteranceId,
              (calculateFeats logfbankT r.signal fl nfilt rate).getD []⟩))
    ∧ (∀ data : List LabRow,
        (getLabels fl rate data).2 =
          (data.filter
            (fun r => decide ((fl + 1/100) * rate + 2 ≤ (r.signal.length : ℚ)))).map
            (fun r => ⟨r.recordingId, r.utteranceId,
              (generateLabelSequence r.signal r.label fl rate).getD []⟩)) := by
  have hrow : ∀ sig : List ℚ,
      (calculateFeats logfbankT sig fl nfilt rate = none ↔
        (sig.length : ℚ) < (fl + 1/100) * rate + 2) := by
    intro sig
    rw [calculateFeats_eq_none_iff, featFrameRange_eq_nil_iff hstep]
  have hrowL : ∀ (sig : List ℚ) (lbl : String),
      (generateLabelSequence sig lbl fl rate = none ↔
        (sig.length : ℚ) < (fl + 1/100) * rate + 2) := by
    intro sig lbl
    rw [generateLabelSequence_eq_none_iff, featFrameRange_eq_nil_iff hstep]
  refine ⟨fun sig lbl => ⟨hrow sig, hrowL sig lbl, ?_⟩, ?_, ?_⟩
  · rw [hrow sig, hrowL sig lbl]
  · intro data
    unfold extract
    rw [filterMap_map_eq_filter_map
      (fun r : SigRow => calculateFeats logfbankT r.signal fl nfilt rate)
      (fun r f => FeatRow.mk r.recordingId r.utteranceId f) [] data]
    congr 1
    apply List.filter_congr
    intro r _
    rcases hc : calculateFeats logfbankT r.signal fl nfilt rate with _ | v
    · have hlt := (hrow r.signal).mp hc
      have hd : decide ((fl + 1/100) * (rate : ℚ) + 2 ≤ (r.signal.length : ℚ)) = false :=
        decide_eq_false (by linarith)
      rw [hd]
      rfl
    · have hge : (fl + 1/100) * (rate : ℚ) + 2 ≤ (r.signal.length : ℚ) := by
        by_contra hlt
        push_neg at hlt
        have hn := (hrow r.signal).mpr hlt
        rw [hc] at hn
        exact absurd hn (by simp)
      rw [decide_eq_true hge]
      rfl
  · intro data
    show data.filterMap _ = _
    rw [filterMap_map_eq_filter_map
      (fun r : LabRow => generateLabelSequence r.signal r.label fl rate)
      (fun r ls => LabelOutRow.mk r.recordingId r.utteranceId ls) [] data]
    congr 1
    apply List.filter_congr
    intro r _
    rcases hc : generateLabelSequence r.signal r.label fl rate with _ | v
    · have hlt := (hrowL r.signal r.label).mp hc
      have hd : decide ((fl + 1/100) * (rate : ℚ) + 2 ≤ (r.signal.length : ℚ)) = false :=
        decide_eq_false (by linarith)
      rw [hd]
      rfl
    · have hge : (fl + 1/100) * (rate : ℚ) + 2 ≤ (r.signal.length : ℚ) := by
        by_contra hlt
        push_neg at hlt
        have hn := (hrowL r.signal r.label).mpr hlt
        rw [hc] at hn
        exact absurd hn (by simp)
      rw [decide_eq_true hge]
      rfl

/-- Witness for the amended claim C2 at `frame_length = 1/2`, `rate = 10`. -/
theorem skip_threshold_characterization_witness :
    1 ≤ pyTrunc ((1/2 : ℚ) * ((10 : ℕ) : ℚ))
    ∧ ((∀ (sig : List ℚ) (lbl : String),
      (calculateFeats (fun _ _ _ => ([] : Mat)) sig (1/2) 32 10 = none ↔
        (sig.length : ℚ) < ((1/2 : ℚ) + 1/100) * ((10 : ℕ) : ℚ) + 2)
      ∧ (generateLabelSequence sig lbl (1/2) 10 = none ↔
        (sig.length : ℚ) < ((1/2 : ℚ) + 1/100) * ((10 : ℕ) : ℚ) + 2)
      ∧ (calculateFeats (fun _ _ _ => ([] : Mat)) sig (1/2) 32 10 = none ↔
        generateLabelSequence sig lbl (1/2) 10 = none))
    ∧ (∀ data : List SigRow,
        extract (fun _ _ _ => ([] : Mat)) (1/2) 32 10 data =
          (data.filter
            (fun r => decide (((1/2 : ℚ) + 1/100) * ((10 : ℕ) : ℚ) + 2 ≤ (r.signal.length : ℚ)))).map
            (fun r => ⟨r.recordingId, r.utteranceId,
              (calculateFeats (fun _ _ _ => ([] : Mat)) r.signal (1/2) 32 10).getD []⟩))
    ∧ (∀ data : List LabRow,
        (getLabels (1/2) 10 data).2 =
          (data.filter
            (fun r => decide (((1/2 : ℚ) + 1/100) * ((10 : ℕ) : ℚ) + 2 ≤ (r.signal.length : ℚ)))).map
            (fun r => ⟨r.recordingId, r.utteranceId,
              (generateLabelSequence r.signal r.label (1/2) 10).getD []⟩))) := by
  have h : (1 : ℤ) ≤ pyTrunc ((1/2 : ℚ) * ((10 : ℕ) : ℚ)) :=
    le_of_le_of_eq (by decide) pyTrunc_half_ten.symm
  exact ⟨h, skip_threshold_characterization (fun _ _ _ => ([] : Mat)) (1/2) 32 10 h⟩

/-- Counterexample to claim C2 as stated: at `frame_length = 1/2`,
`rate = 10`, a signal of length 7 is skipped by both components although its
length is not below the spec's threshold `(frame_length+0.01)*rate + 1 = 6.1`. -/
theorem skip_claim_false :
    generateLabelSequence (List.replicate 7 (0 : ℚ)) "speech" (1/2) 10 = none
    ∧ calculateFeats (fun _ _ _ => ([] : Mat)) (List.replicate 7 (0 : ℚ)) (1/2) 32 10 = none
    ∧ ¬ specClaimedSkip (List.replicate 7 (0 : ℚ)).length (1/2) 10 := by
  refine ⟨?_, ?_, ?_⟩
  · rw [generateLabelSequence_eq_none_iff]
    simp only [List.length_replicate]
    exact featFrameRange_7
  · rw [calculateFeats_eq_none_iff]
    simp only [List.length_replicate]
    exact featFrameRange_7
  · unfold specClaimedSkip
    simp only [List.length_replicate]
    norm_num

/-- Claim C3: whenever both per-row computations succeed on a row, the number
of per-frame feature matrices equals the number of per-frame labels. -/
theorem features_labels_count_aligned (logfbankT : List ℚ → ℕ → ℕ → Mat)
    (sig : List ℚ) (lbl : String) (fl : ℚ) (nfilt rate : ℕ)
    (fs : List Mat) (ls : List String)
    (h1 : calculateFeats logfbankT sig fl nfilt rate = some fs)
    (h2 : generateLabelSequence sig lbl fl rate = some ls) :
    fs.length = ls.length := by
  simp only [calculateFeats] at h1
  simp only [generateLabelSequence, labelFrameRange_eq_featFrameRange] at h2
  split at h1
  · rename_i hpos
    rw [if_pos hpos] at h2
    injection h1 with h1'
    injection h2 with h2'
    rw [← h1', ← h2']
    simp
  · exact absurd h1 (by simp)

/-- Witness for claim C3 at a signal of length 12, `frame_length = 1/2`,
`rate = 10` (one frame on each side). -/
theorem features_labels_count_aligned_witness :
    calculateFeats (fun _ _ _ => ([] : Mat)) (List.replicate 12 (0 : ℚ)) (1/2) 32 10
      = some [([] : Mat)]
    ∧ generateLabelSequence (List.replicate 12 (0 : ℚ)) "speech" (1/2) 10
      = some ["speech"]
    ∧ ([([] : Mat)] : List Mat).length = (["speech"] : List String).length := by
  have h1 : calculateFeats (fun _ _ _ => ([] : Mat)) (List.replicate 12 (0 : ℚ)) (1/2) 32 10
      = some [([] : Mat)] := by
    simp only [calculateFeats, List.length_replicate]
    rw [featFrameRange_12]
    decide
  have h2 : generateLabelSequence (List.replicate 12 (0 : ℚ)) "speech" (1/2) 10
      = some ["speech"] := by
    simp only [generateLabelSequence, labelFrameRange_eq_featFrameRange,
      List.length_replicate]
    rw [featFrameRange_12]
    decide
  exact ⟨h1, h2,
    features_labels_count_aligned (fun _ _ _ => ([] : Mat)) (List.replicate 12 (0 : ℚ))
      "speech" (1/2) 32 10 [([] : Mat)] ["speech"] h1 h2⟩

/-- Claim C7: a row with at least one frame offset gets one copy of its label
per offset, in order, with length equal to the number of offsets. -/
theorem label_aligner_replicates (sig : List ℚ) (lbl : String) (fl : ℚ)
    (rate : ℕ) (h : labelFrameRange sig.length fl rate ≠ []) :
    generateLabelSequence sig lbl fl rate =
      some (List.replicate (labelFrameRange sig.length fl rate).length lbl)
    ∧ ∀ ls, generateLabelSequence sig lbl fl rate = some ls →
        ls.length = (labelFrameRange sig.length fl rate).length := by
  have hpos : 0 < (labelFrameRange sig.length fl rate).length :=
    List.length_pos.mpr h
  have hmain : generateLabelSequence sig lbl fl rate =
      some (List.replicate (labelFrameRange sig.length fl rate).length lbl) := by
    unfold generateLabelSequence
    rw [if_pos hpos]
    congr 1
    exact List.map_const' _ lbl
  refine ⟨hmain, ?_⟩
  intro ls hls
  rw [hmain] at hls
  injection hls with hls'
  rw [← hls']
  simp

/-- Witness for claim C7 at a signal of length 12, `frame_length = 1/2`,
`rate = 10`. -/
theorem label_aligner_replicates_witness :
    labelFrameRange (List.replicate 12 (0 : ℚ)).length (1/2) 10 ≠ []
    ∧ (generateLabelSequence (List.replicate 12 (0 : ℚ)) "speech" (1/2) 10 =
      some (List.replicate
        (labelFrameRange (List.replicate 12 (0 : ℚ)).length (1/2) 10).length "speech")
    ∧ ∀ ls, generateLabelSequence (List.replicate 12 (0 : ℚ)) "speech" (1/2) 10 = some ls →
        ls.length = (labelFrameRange (List.replicate 12 (0 : ℚ)).length (1/2) 10).length) := by
  have h : labelFrameRange (List.replicate 12 (0 : ℚ)).length (1/2) 10 ≠ [] := by
    simp only [List.length_replicate, labelFrameRange_eq_featFrameRange,
      featFrameRange_12]
    decide
  exact ⟨h, label_aligner_replicates (List.replicate 12 (0 : ℚ)) "speech" (1/2) 10 h⟩

/-- Claim C9: every frame offset's slice ends (exclusively) at
`o + floor((frame_length + 0.01) * rate)`, strictly inside the signal, and all
frames of a row have the same sample count. -/
theorem frame_slice_in_bounds (sig : List ℚ) (fl : ℚ) (rate : ℕ) (o : ℤ)
    (hfl : 0 ≤ fl) (hstep : 1 ≤ pyTrunc (fl * rate))
    (ho : o ∈ featFrameRange sig.length fl rate) :
    0 ≤ o
    ∧ pyTrunc ((o : ℚ) + (fl + 1/100) * rate) = o + ⌊(fl + 1/100) * (rate : ℚ)⌋
    ∧ o + ⌊(fl + 1/100) * (rate : ℚ)⌋ < (sig.length : ℤ)
    ∧ (pySlice sig o (pyTrunc ((o : ℚ) + (fl + 1/100) * rate))).length
        = (⌊(fl + 1/100) * (rate : ℚ)⌋).toNat := by
  have hp : (0 : ℚ) ≤ (fl + 1/100) * rate :=
    mul_nonneg (by linarith) (by positivity)
  unfold featFrameRange at ho
  obtain ⟨k, hk, hlt⟩ := (mem_pyRange_zero_iff hstep o).mp ho
  have ho0 : 0 ≤ o := by
    rw [hk]
    exact mul_nonneg (Int.natCast_nonneg k) (by omega)
  have hfl0 : (0 : ℤ) ≤ ⌊(fl + 1/100) * (rate : ℚ)⌋ := Int.floor_nonneg.mpr hp
  have heq : pyTrunc ((o : ℚ) + (fl + 1/100) * rate)
      = o + ⌊(fl + 1/100) * (rate : ℚ)⌋ := by
    rw [pyTrunc_eq_floor (add_nonneg (by exact_mod_cast ho0) hp)]
    exact Int.floor_int_add o _
  have hb : o + ⌊(fl + 1/100) * (rate : ℚ)⌋ < (sig.length : ℤ) := by
    rcases le_or_lt 0 ((sig.length : ℚ) - 1 - (fl + 1/100) * rate) with hpos | hneg
    · rw [pyTrunc_eq_floor hpos] at hlt
      have h1 : ((o + 1 : ℤ) : ℚ) ≤ (sig.length : ℚ) - 1 - (fl + 1/100) * rate :=
        Int.le_floor.mp (by omega)
      have h2 : ((⌊(fl + 1/100) * (rate : ℚ)⌋ : ℚ)) ≤ (fl + 1/100) * rate :=
        Int.floor_le _
      have h3 : ((o + ⌊(fl + 1/100) * (rate : ℚ)⌋ : ℤ) : ℚ) < (sig.length : ℚ) := by
        push_cast at h1 ⊢
        linarith
      exact_mod_cast h3
    · exfalso
      have hle : pyTrunc ((sig.length : ℚ) - 1 - (fl + 1/100) * rate) ≤ 0 :=
        pyTrunc_nonpos_iff.mpr (by linarith)
      omega
  refine ⟨ho0, heq, hb, ?_⟩
  rw [heq]
  unfold pySlice
  rw [List.length_take, List.length_drop]
  omega

/-- Witness for claim C9 at a signal of length 12, `frame_length = 1/2`,
`rate = 10`, offset 0. -/
theorem frame_slice_in_bounds_witness :
    (0 : ℚ) ≤ 1/2
    ∧ 1 ≤ pyTrunc ((1/2 : ℚ) * ((10 : ℕ) : ℚ))
    ∧ (0 : ℤ) ∈ featFrameRange (List.replicate 12 (0 : ℚ)).length (1/2) 10
    ∧ (0 ≤ (0 : ℤ)
      ∧ pyTrunc (((0 : ℤ) : ℚ) + ((1/2 : ℚ) + 1/100) * ((10 : ℕ) : ℚ))
          = (0 : ℤ) + ⌊((1/2 : ℚ) + 1/100) * ((10 : ℕ) : ℚ)⌋
      ∧ (0 : ℤ) + ⌊((1/2 : ℚ) + 1/100) * ((10 : ℕ) : ℚ)⌋
          < ((List.replicate 12 (0 : ℚ)).length : ℤ)
      ∧ (pySlice (List.replicate 12 (0 : ℚ)) 0
          (pyTrunc (((0 : ℤ) : ℚ) + ((1/2 : ℚ) + 1/100) * ((10 : ℕ) : ℚ)))).length
          = (⌊((1/2 : ℚ) + 1/100) * ((10 : ℕ) : ℚ)⌋).toNat) := by
  have h1 : (0 : ℚ) ≤ 1/2 := one_half_pos.le
  have h2 : (1 : ℤ) ≤ pyTrunc ((1/2 : ℚ) * ((10 : ℕ) : ℚ)) :=
    le_of_le_of_eq (by decide) pyTrunc_half_ten.symm
  have h3 : (0 : ℤ) ∈ featFrameRange (List.replicate 12 (0 : ℚ)).length (1/2) 10 := by
    simp only [List.length_replicate, featFrameRange_12]
    decide
  exact ⟨h1, h2, h3,
    frame_slice_in_bounds (List.replicate 12 (0 : ℚ)) (1/2) 10 0 h1 h2 h3⟩

theorem flatten_perm_of_perm {α : Type} {l₁ l₂ : List (List α)}
    (h : l₁.Perm l₂) : l₁.flatten.Perm l₂.flatten := by
  induction h with
  | nil => exact List.Perm.refl _
  | cons x _ ih =>
      simp only [List.flatten_cons]
      exact ih.append_left x
  | swap x y l =>
      simp only [List.flatten_cons]
      rw [← List.append_assoc, ← List.append_assoc]
      exact List.perm_append_comm.append_right _
  | trans _ _ ih1 ih2 => exact ih1.trans ih2

/-- Claim C4: the vocabulary assigns indices `0..K-1` alphabetically to the
distinct labels of the whole dataset, and depends only on the set of distinct
labels: permuting the dataset's rows changes neither the vocabulary nor any
label's one-hot vector. -/
theorem one_hot_vocab_deterministic (col col' : List (List String))
    (h : col.Perm col') :
    oneHotVocab col = oneHotVocab col'
    ∧ (∀ l, oneHotVec (oneHotVocab col) l = oneHotVec (oneHotVocab col') l)
    ∧ List.Sorted (· < ·) (oneHotVocab col)
    ∧ (oneHotVocab col).Nodup
    ∧ (∀ l, l ∈ oneHotVocab col ↔ l ∈ col.flatten)
    ∧ (oneHotVocab col).length = col.flatten.toFinset.card := by
  have hfin : col.flatten.toFinset = col'.flatten.toFinset :=
    List.toFinset_eq_of_perm _ _ (flatten_perm_of_perm h)
  have hv : oneHotVocab col = oneHotVocab col' := by
    unfold oneHotVocab
    rw [hfin]
  refine ⟨hv, fun l => by rw [hv], ?_, ?_, ?_, ?_⟩
  · show List.Sorted (· < ·) ((col.flatten.toFinset).sort (· ≤ ·))
    exact Finset.sort_sorted_lt _
  · show ((col.flatten.toFinset).sort (· ≤ ·)).Nodup
    exact Finset.sort_nodup _ _
  · intro l
    show l ∈ (col.flatten.toFinset).sort (· ≤ ·) ↔ _
    rw [Finset.mem_sort, List.mem_toFinset]
  · show ((col.flatten.toFinset).sort (· ≤ ·)).length = _
    exact Finset.length_sort _

/-- Witness for claim C4 on the two-row dataset `[["b"], ["a"]]` and its row
permutation `[["a"], ["b"]]`. -/
theorem one_hot_vocab_deterministic_witness :
    ([["b"], ["a"]] : List (List String)).Perm [["a"], ["b"]]
    ∧ (oneHotVocab [["b"], ["a"]] = oneHotVocab [["a"], ["b"]]
    ∧ (∀ l, oneHotVec (oneHotVocab [["b"], ["a"]]) l
        = oneHotVec (oneHotVocab [["a"], ["b"]]) l)
    ∧ List.Sorted (· < ·) (oneHotVocab [["b"], ["a"]])
    ∧ (oneHotVocab [["b"], ["a"]]).Nodup
    ∧ (∀ l, l ∈ oneHotVocab [["b"], ["a"]] ↔ l ∈ ([["b"], ["a"]] : List (List String)).flatten)
    ∧ (oneHotVocab [["b"], ["a"]]).length
        = ([["b"], ["a"]] : List (List String)).flatten.toFinset.card) := by
  have h : ([["b"], ["a"]] : List (List String)).Perm [["a"], ["b"]] := by decide
  exact ⟨h, one_hot_vocab_deterministic [["b"], ["a"]] [["a"], ["b"]] h⟩

theorem count_one_indicator_map_of_ge (t : ℕ) :
    ∀ n : ℕ, n ≤ t →
      ((List.range n).map (fun j => if j = t then (1 : ℕ) else 0)).count 1 = 0 := by
  intro n
  induction n with
  | zero => intro _; rfl
  | succ m ih =>
      intro hn
      rw [List.range_succ, List.map_append, List.count_append]
      rw [ih (by omega)]
      simp [show m ≠ t by omega]

theorem count_one_indicator_map (t : ℕ) :
    ∀ n : ℕ, t < n →
      ((List.range n).map (fun j => if j = t then (1 : ℕ) else 0)).count 1 = 1 := by
  intro n
  induction n with
  | zero => intro h; omega
  | succ m ih =>
      intro hn
      rw [List.range_succ, List.map_append, List.count_append]
      rcases Nat.lt_or_ge t m with hc | hc
      · rw [ih hc]
        simp [show m ≠ t by omega]
      · have htm : t = m := by omega
        subst htm
        rw [count_one_indicator_map_of_ge t t le_rfl]
        simp

/-- Claim C5: every one-hot vector has length `K` (the number of distinct
labels of the dataset), exactly one entry 1 — at the label's assigned
index — and the rest 0; the encoder emits one vector per frame, preserving
row and frame order. -/
theorem one_hot_wellformed (col : List (List String)) (l : String)
    (h : l ∈ col.flatten) :
    (oneHotVec (oneHotVocab col) l).length = (oneHotVocab col).length
    ∧ (oneHotVocab col).length = col.flatten.toFinset.card
    ∧ (oneHotVec (oneHotVocab col) l).count 1 = 1
    ∧ (∀ x ∈ oneHotVec (oneHotVocab col) l, x = 0 ∨ x = 1)
    ∧ (oneHotVec (oneHotVocab col) l)[(oneHotVocab col).indexOf l]? = some 1
    ∧ (∀ i : ℕ, (oneHot col)[i]? =
        (col[i]?).map (fun row => row.map (fun lb => oneHotVec (oneHotVocab col) lb))) := by
  have hmem : l ∈ oneHotVocab col := by
    show l ∈ (col.flatten.toFinset).sort (· ≤ ·)
    rw [Finset.mem_sort, List.mem_toFinset]
    exact h
  have hidx : (oneHotVocab col).indexOf l < (oneHotVocab col).length :=
    List.indexOf_lt_length.mpr hmem
  refine ⟨by simp [oneHotVec], ?_, ?_, ?_, ?_, ?_⟩
  · show ((col.flatten.toFinset).sort (· ≤ ·)).length = _
    exact Finset.length_sort _
  · exact count_one_indicator_map _ _ hidx
  · intro x hx
    rcases List.mem_map.mp hx with ⟨j, _, hj⟩
    by_cases hjt : j = (oneHotVocab col).indexOf l
    · right
      rw [← hj, if_pos hjt]
    · left
      rw [← hj, if_neg hjt]
  · unfold oneHotVec
    rw [List.getElem?_map, List.getElem?_range hidx]
    simp
  · intro i
    simp only [oneHot]
    rw [List.getElem?_map]

/-- Witness for claim C5 on the dataset `[["b", "a"]]` and label `"a"`. -/
theorem one_hot_wellformed_witness :
    "a" ∈ ([["b", "a"]] : List (List String)).flatten
    ∧ ((oneHotVec (oneHotVocab [["b", "a"]]) "a").length
        = (oneHotVocab [["b", "a"]]).length
    ∧ (oneHotVocab [["b", "a"]]).length
        = ([["b", "a"]] : List (List String)).flatten.toFinset.card
    ∧ (oneHotVec (oneHotVocab [["b", "a"]]) "a").count 1 = 1
    ∧ (∀ x ∈ oneHotVec (oneHotVocab [["b", "a"]]) "a", x = 0 ∨ x = 1)
    ∧ (oneHotVec (oneHotVocab [["b", "a"]]) "a")[(oneHotVocab [["b", "a"]]).indexOf "a"]?
        = some 1
    ∧ (∀ i : ℕ, (oneHot [["b", "a"]])[i]? =
        ((([["b", "a"]] : List (List String)))[i]?).map
          (fun row => row.map (fun lb => oneHotVec (oneHotVocab [["b", "a"]]) lb)))) := by
  have h : "a" ∈ ([["b", "a"]] : List (List String)).flatten := by decide
  exact ⟨h, one_hot_wellformed [["b", "a"]] "a" h⟩

theorem find?_map_key {β : Type} (f : String → β) (r : String) :
    ∀ ks : List String, r ∈ ks →
      ((ks.map (fun k => (k, f k))).find? (fun e => e.1 == r)) = some (r, f r) := by
  intro ks
  induction ks with
  | nil =>
      intro h
      cases h
  | cons k ks ih =>
      intro h
      rw [List.map_cons]
      by_cases hk : k = r
      · subst hk
        rw [List.find?_cons_of_pos _ (by simp)]
      · rw [List.find?_cons_of_neg _ (by simp [hk])]
        rcases List.mem_cons.mp h with h' | h'
        · exact absurd h'.symm hk
        · exact ih h'

theorem mem_groupKeys {data : List FeatRow} {r : FeatRow} (hr : r ∈ data) :
    r.recordingId ∈ groupKeys data := by
  unfold groupKeys
  rw [Finset.mem_sort, List.mem_toFinset, List.mem_map]
  exact ⟨r, hr, rfl⟩

theorem find?_meanStdTable (stdFun : ℚ → ℚ) (data : List FeatRow)
    {r : FeatRow} (hr : r ∈ data) :
    ((meanStdTable stdFun data).find? (fun e => e.1 == r.recordingId)) =
      some (r.recordingId, getMeanStd stdFun (groupFeats data r.recordingId)) := by
  unfold meanStdTable
  exact find?_map_key (fun k => getMeanStd stdFun (groupFeats data k))
    r.recordingId (groupKeys data) (mem_groupKeys hr)

/-- The merge step never drops a row (every recording-id is a group key), so
`normalize` is the row-wise map applying each row's own group statistics. -/
theorem normalize_eq_map (stdFun : ℚ → ℚ) (data : List FeatRow) :
    normalize stdFun data = data.map (fun r =>
      NormRow.mk r.recordingId r.utteranceId
        (calculateNorm (groupMean (groupFeats data r.recordingId))
          (stdFun (groupVar (groupFeats data r.recordingId))) r.features)) := by
  unfold normalize
  rw [filterMap_map_eq_filter_map
    (fun r : FeatRow => (meanStdTable stdFun data).find? (fun e => e.1 == r.recordingId))
    (fun r e => NormRow.mk r.recordingId r.utteranceId
      (calculateNorm e.2.1 e.2.2 r.features)) ("", 0, 0) data]
  have hfilter : data.filter
      (fun r => ((meanStdTable stdFun data).find?
        (fun e => e.1 == r.recordingId)).isSome) = data := by
    rw [List.filter_eq_self]
    intro r hr
    rw [find?_meanStdTable stdFun data hr]
    rfl
  rw [hfilter]
  apply List.map_congr_left
  intro r hr
  rw [find?_meanStdTable stdFun data hr]
  rfl

/-- Claim C6: `normalize` computes one scalar mean and one scalar standard
deviation per recording-id, pooled over every feature value of every frame of
every row of that recording, and rescales every entry of every frame of every
row as `(value - mean) / std` with its own recording's pair. -/
theorem normalize_pooled_per_recording (stdFun : ℚ → ℚ) (data : List FeatRow)
    (i : ℕ) (hi : i < data.length) :
    (normalize stdFun data).length = data.length
    ∧ (normalize stdFun data)[i]? =
        some (NormRow.mk (data.get ⟨i, hi⟩).recordingId
          (data.get ⟨i, hi⟩).utteranceId
          ((data.get ⟨i, hi⟩).features.map (fun fr => fr.map (fun line => line.map (fun v =>
            pyDiv (v - groupMean (groupFeats data (data.get ⟨i, hi⟩).recordingId))
              (stdFun (groupVar (groupFeats data (data.get ⟨i, hi⟩).recordingId)))))))) := by
  rw [normalize_eq_map]
  refine ⟨by simp, ?_⟩
  rw [List.getElem?_map, List.getElem?_eq_getElem hi]
  rfl

/-- Witness for claim C6 on a one-row table. -/
theorem normalize_pooled_per_recording_witness :
    (0 : ℕ) < ([FeatRow.mk "r" "u" [[[1, 3]]]] : List FeatRow).length
    ∧ ((normalize (fun q => q) [FeatRow.mk "r" "u" [[[1, 3]]]]).length
        = ([FeatRow.mk "r" "u" [[[1, 3]]]] : List FeatRow).length
    ∧ (normalize (fun q => q) [FeatRow.mk "r" "u" [[[1, 3]]]])[0]? =
        some (NormRow.mk "r" "u"
          ([[[1, 3]]].map (fun fr => fr.map (fun line => line.map (fun v =>
            pyDiv (v - groupMean (groupFeats [FeatRow.mk "r" "u" [[[1, 3]]]] "r"))
              ((fun q => q) (groupVar (groupFeats [FeatRow.mk "r" "u" [[[1, 3]]]] "r"))))))))) := by
  have hi : (0 : ℕ) < ([FeatRow.mk "r" "u" [[[1, 3]]]] : List FeatRow).length := by
    decide
  exact ⟨hi, normalize_pooled_per_recording (fun q => q)
    [FeatRow.mk "r" "u" [[[1, 3]]]] 0 hi⟩

theorem sum_eq_of_all_eq {l : List ℚ} {c : ℚ} (h : ∀ v ∈ l, v = c) :
    l.sum = l.length * c := by
  induction l with
  | nil => simp
  | cons x xs ih =>
      rw [List.sum_cons, ih (fun v hv => h v (List.mem_cons_of_mem x hv)),
        h x (List.mem_cons_self x xs), List.length_cons]
      push_cast
      ring

theorem groupMean_of_const {g : List (List Mat)} {c : ℚ}
    (hne : poolVals g ≠ []) (h : ∀ v ∈ poolVals g, v = c) : groupMean g = c := by
  unfold groupMean
  rw [sum_eq_of_all_eq h]
  have hlen : ((poolVals g).length : ℚ) ≠ 0 :=
    Nat.cast_ne_zero.mpr (fun h0 => hne (List.eq_nil_of_length_eq_zero h0))
  field_simp

theorem groupVar_of_const {g : List (List Mat)} {c : ℚ}
    (h : ∀ v ∈ poolVals g, v = c) (hmean : groupMean g = c) : groupVar g = 0 := by
  unfold groupVar
  have hz : ((poolVals g).map (fun v => (v - groupMean g) ^ 2)).sum = 0 := by
    apply List.sum_eq_zero
    intro x hx
    rcases List.mem_map.mp hx with ⟨v, hv, rfl⟩
    rw [h v hv, hmean]
    ring
  rw [hz]
  simp

/-- Claim C8: when a recording's pooled values are constant (so its pooled
standard deviation is zero), `normalize` neither fails nor drops rows: the
row count is preserved and every frame of the affected recording still gets a
full output matrix, whose entries are all the non-finite value NaN. -/
theorem normalize_zero_std (stdFun : ℚ → ℚ) (data : List FeatRow) (i : ℕ)
    (c : ℚ) (h0 : stdFun 0 = 0) (hi : i < data.length)
    (hconst : ∀ v ∈ poolVals (groupFeats data (data.get ⟨i, hi⟩).recordingId), v = c)
    (hne : poolVals (groupFeats data (data.get ⟨i, hi⟩).recordingId) ≠ []) :
    (normalize stdFun data).length = data.length
    ∧ stdFun (groupVar (groupFeats data (data.get ⟨i, hi⟩).recordingId)) = 0
    ∧ (normalize stdFun data)[i]? =
        some (NormRow.mk (data.get ⟨i, hi⟩).recordingId
          (data.get ⟨i, hi⟩).utteranceId
          ((data.get ⟨i, hi⟩).features.map (fun fr => fr.map (fun line => line.map (fun _ =>
            PyFloat.nan))))) := by
  have hmean := groupMean_of_const hne hconst
  have hvar := groupVar_of_const hconst hmean
  have hrowmem : (data.get ⟨i, hi⟩).features
      ∈ groupFeats data (data.get ⟨i, hi⟩).recordingId := by
    unfold groupFeats
    apply List.mem_map.mpr
    refine ⟨data.get ⟨i, hi⟩, ?_, rfl⟩
    rw [List.mem_filter]
    exact ⟨List.get_mem data i hi, by simp⟩
  have hvmem : ∀ {fr : Mat} {line : List ℚ} {v : ℚ},
      fr ∈ (data.get ⟨i, hi⟩).features → line ∈ fr → v ∈ line →
        v ∈ poolVals (groupFeats data (data.get ⟨i, hi⟩).recordingId) := by
    intro fr line v hfr hline hv
    unfold poolVals
    apply List.mem_flatten.mpr
    refine ⟨line, ?_, hv⟩
    apply List.mem_flatten.mpr
    refine ⟨fr, ?_, hline⟩
    apply List.mem_flatten.mpr
    exact ⟨(data.get ⟨i, hi⟩).features, hrowmem, hfr⟩
  have hnorm : calculateNorm
      (groupMean (groupFeats data (data.get ⟨i, hi⟩).recordingId))
      (stdFun (groupVar (groupFeats data (data.get ⟨i, hi⟩).recordingId)))
      (data.get ⟨i, hi⟩).features
      = (data.get ⟨i, hi⟩).features.map (fun fr => fr.map (fun line => line.map (fun _ =>
          PyFloat.nan))) := by
    rw [hmean, hvar, h0]
    unfold calculateNorm
    apply List.map_congr_left
    intro fr hfr
    apply List.map_congr_left
    intro line hline
    apply List.map_congr_left
    intro v hv
    rw [hconst v (hvmem hfr hline hv)]
    unfold pyDiv
    simp
  refine ⟨by rw [normalize_eq_map]; simp, by rw [hvar, h0], ?_⟩
  rw [normalize_eq_map, List.getElem?_map, List.getElem?_eq_getElem hi]
  show some (NormRow.mk (data.get ⟨i, hi⟩).recordingId (data.get ⟨i, hi⟩).utteranceId
    (calculateNorm (groupMean (groupFeats data (data.get ⟨i, hi⟩).recordingId))
      (stdFun (groupVar (groupFeats data (data.get ⟨i, hi⟩).recordingId)))
      (data.get ⟨i, hi⟩).features)) = _
  rw [hnorm]

/-- Witness for claim C8 on a one-row table whose only recording has the
constant pooled value 2. -/
theorem normalize_zero_std_witness :
    (fun q : ℚ => q) 0 = 0
    ∧ (0 : ℕ) < ([FeatRow.mk "r" "u" [[[2, 2]]]] : List FeatRow).length
    ∧ (∀ v ∈ poolVals (groupFeats [FeatRow.mk "r" "u" [[[2, 2]]]] "r"), v = 2)
    ∧ poolVals (groupFeats [FeatRow.mk "r" "u" [[[2, 2]]]] "r") ≠ []
    ∧ ((normalize (fun q => q) [FeatRow.mk "r" "u" [[[2, 2]]]]).length
        = ([FeatRow.mk "r" "u" [[[2, 2]]]] : List FeatRow).length
      ∧ (fun q : ℚ => q)
          (groupVar (groupFeats [FeatRow.mk "r" "u" [[[2, 2]]]] "r")) = 0
      ∧ (normalize (fun q => q) [FeatRow.mk "r" "u" [[[2, 2]]]])[0]? =
          some (NormRow.mk "r" "u"
            ([[[2, 2]]].map (fun fr => fr.map (fun line => line.map (fun _ =>
              PyFloat.nan)))))) := by
  have h0 : (fun q : ℚ => q) 0 = 0 := rfl
  have hi : (0 : ℕ) < ([FeatRow.mk "r" "u" [[[2, 2]]]] : List FeatRow).length := by
    decide
  have hconst : ∀ v ∈ poolVals (groupFeats [FeatRow.mk "r" "u" [[[2, 2]]]] "r"),
      v = 2 := by decide
  have hne : poolVals (groupFeats [FeatRow.mk "r" "u" [[[2, 2]]]] "r") ≠ [] := by
    decide
  exact ⟨h0, hi, hconst, hne,
    normalize_zero_std (fun q => q) [FeatRow.mk "r" "u" [[[2, 2]]]] 0 2 h0 hi
      hconst hne⟩

/-- Claim C10: `extract` and `normalize` leave the caller's table unchanged
(both copy it before touching any column), while `get_labels` mutates its
argument in place: after the call the caller's table still holds every
original column and has gained the computed `labels` column (including the
`None` entries of skipped rows). -/
theorem caller_table_effects :
    (∀ (logfbankT : List ℚ → ℕ → ℕ → Mat) (fl : ℚ) (nfilt rate : ℕ)
        (data : List SigRow),
      (extractCall logfbankT fl nfilt rate data).1 = data)
    ∧ (∀ (stdFun : ℚ → ℚ) (data : List FeatRow),
      (normalizeCall stdFun data).1 = data)
    ∧ (∀ (fl : ℚ) (rate : ℕ) (data : List LabRow),
      (getLabels fl rate data).1 =
        data.map (fun r => LabeledRow.mk r.recordingId r.utteranceId r.label
          r.signal (generateLabelSequence r.signal r.label fl rate))
      ∧ ((getLabels fl rate data).1.map
          (fun r => LabRow.mk r.recordingId r.utteranceId r.label r.signal))
          = data) := by
  refine ⟨fun _ _ _ _ _ => rfl, fun _ _ => rfl, fun fl rate data => ⟨rfl, ?_⟩⟩
  show (getLabelsCallerTable fl rate data).map _ = data
  unfold getLabelsCallerTable
  rw [List.map_map]
  conv_rhs => rw [← List.map_id data]
  apply List.map_congr_left
  intro r _
  rfl

end Voxseg
